import Mathlib

/-!
# LocaleResolver: shallow embedding of the locale message resolution module

This development embeds the i18n core of the wallet front-end (the module
containing `init`, `getMessage`, `fetchLocaleMessages`, `appendPlaceholderLists`,
`getCldrLocale`, `getNumberSymbols`, `getCurrentLocale`) and proves the
specified properties of message lookup, placeholder binding, error degradation
and state replacement.

JSON objects (`LocaleMessages`, the `placeholders` map, the substitution
parameter object) are embedded as association lists; JS `undefined` / `null`
become `Option`; a thrown JS exception becomes `Except.error`; the sparse JS
array `placeholderList` becomes a `List (Option String)` where a hole is
`none`.
-/

namespace LocaleResolver

/-- Wire-format placeholder descriptor `{ content: string }`.  `content` is
`Option` because a malformed descriptor may lack the string (accessing it then
throws in JS, which the embedding surfaces as `Except.error`). -/
structure PlaceholderDescr where
  content : Option String
  deriving DecidableEq, Repr

/-- One message of a bundle: `{ message, placeholders?, placeholderList? }`.
`placeholderList` is the derived field attached by `appendPlaceholderLists`;
it is a sparse array, embedded with `none` for holes. -/
structure LocaleMessage where
  message : String
  placeholders : Option (List (String × PlaceholderDescr))
  placeholderList : Option (List (Option String))
  deriving DecidableEq, Repr

/-- `LocaleMessages`: a JSON object mapping message key to message. -/
abbrev LocaleMessages := List (String × LocaleMessage)

/-- The module-global pair `{ target, fallback }`; a slot is `none` when its
fetch failed or no load has happened yet. -/
structure FetchedLocaleMessages where
  target : Option LocaleMessages
  fallback : Option LocaleMessages
  deriving DecidableEq, Repr

/-- Numbering-system symbol table (`symbols-numberSystem-latn`). -/
structure NumberSymbols where
  decimal : String
  group : String
  deriving DecidableEq, Repr

/-- The `numbers` field of a cldrjs locale object. -/
structure CldrNumbers where
  symbolsNumberSystemLatn : NumberSymbols
  deriving DecidableEq, Repr

/-- A cldrjs locale metadata object. -/
structure CldrLocale where
  numbers : CldrNumbers
  deriving DecidableEq, Repr

/-- Modelled from the spec: the static table `cldrjs-locales.json` is not in
the sources (only its lookup sites are); it is a locale-code indexed mapping
that always carries an `en` baseline entry. -/
structure CldrTable where
  entries : List (String × CldrLocale)
  en : CldrLocale
  deriving DecidableEq, Repr

/-- The module's mutable globals `fetchedLocaleMessages` and `cldrLocale`,
gathered in one record for explicit state passing. -/
structure ResolverState where
  fetchedLocaleMessages : FetchedLocaleMessages
  cldrLocale : CldrLocale
  deriving DecidableEq, Repr

/-- The initial values of the globals: both bundle slots `null`, metadata the
baseline `cldrjsLocales.en` entry. -/
def initialResolverState (table : CldrTable) : ResolverState :=
  { fetchedLocaleMessages := { target := none, fallback := none }
    cldrLocale := table.en }

/-- Modelled from the spec: the `Substitutions` type of the missing `types`
module — a single value, a list of values, or absent. -/
inductive Substitutions where
  | undef : Substitutions
  | single : String → Substitutions
  | multiple : List String → Substitutions
  deriving DecidableEq, Repr

/-- Modelled from the spec: `toList` of the missing `helpers` module
normalizes substitutions into an ordered argument list (a single non-list
value becomes a one-element list). -/
def toList : Substitutions → List String
  | .undef => []
  | .single v => [v]
  | .multiple vs => vs

/-- JS `a || b` for a nullable string `a`: `null` and the empty string are
falsy. -/
def jsOrString (a : Option String) (b : String) : String :=
  match a with
  | some s => if s = "" then b else s
  | none => b

/-- `getCurrentLocale`: `getSavedLocale() || getNativeLocale()`. -/
def getCurrentLocale (saved : Option String) (native : String) : String :=
  jsOrString saved native

/-- Sparse-array read `placeholderList?.[i]`: `none` when the list is absent,
the index is out of range, or the slot is a hole. -/
def placeholderListAt (pl : Option (List (Option String))) (i : Nat) : Option String :=
  match pl with
  | none => none
  | some l => l[i]?.join

/-- The JS value `placeholderList?.[i] ?? i`: either a placeholder name
(string) or the numeric index. -/
inductive ParamKey where
  | str : String → ParamKey
  | num : Nat → ParamKey
  deriving DecidableEq, Repr

/-- JS truthiness of a param key: the empty string and `0` are falsy. -/
def ParamKey.truthy : ParamKey → Bool
  | .str s => s ≠ ""
  | .num n => n ≠ 0

/-- JS coercion of a computed object key to a property name string. -/
def ParamKey.keyString : ParamKey → String
  | .str s => s
  | .num n => toString n

/-- The key chosen for the argument at position `i`:
`val.placeholderList?.[i] ?? i`. -/
def paramKeyAt (pl : Option (List (Option String))) (i : Nat) : ParamKey :=
  match placeholderListAt pl i with
  | some name => .str name
  | none => .num i

/-- JS object update `{ ...prms, [k]: v }`, as an association list with unique
keys: any previous binding of `k` is replaced. -/
def jsInsert (params : List (String × String)) (k v : String) : List (String × String) :=
  params.filter (fun p => p.1 ≠ k) ++ [(k, v)]

/-- The `reduce` in `getMessage` building the substitution parameters, with
`i` the position of the next argument: a binding is added only when the chosen
key is truthy (`pKey ? { ...prms, [pKey]: sub } : prms`). -/
def buildParamsAux (pl : Option (List (Option String))) :
    List String → Nat → List (String × String) → List (String × String)
  | [], _, acc => acc
  | sub :: rest, i, acc =>
      let k := paramKeyAt pl i
      buildParamsAux pl rest (i + 1) (if k.truthy then jsInsert acc k.keyString sub else acc)

/-- The full name→value binding built by `getMessage` from the normalized
argument list. -/
def buildParams (pl : Option (List (Option String))) (args : List String) :
    List (String × String) :=
  buildParamsAux pl args 0 []

/-- Split a character list on `$`, keeping the (possibly empty) segments. -/
def splitDollar : List Char → List (List Char)
  | [] => [[]]
  | c :: rest =>
      match splitDollar rest with
      | [] => [[]]
      | seg :: segs => if c = '$' then [] :: seg :: segs else (c :: seg) :: segs

/-- Modelled from the spec: the substitution pass of `processTemplate` of the
missing `helpers` module.  Segments produced by splitting on `$` are
alternately literal text and referenced names; a referenced name with a
binding is replaced by its value, one without a binding is left as the raw
token. -/
def substituteSegments (params : List (String × String)) :
    List (List Char) → Bool → String
  | [], _ => ""
  | s :: rest, isName =>
      (if isName then
        match params.lookup (String.mk s) with
        | some v => v
        | none => "$" ++ String.mk s ++ "$"
      else String.mk s) ++ substituteSegments params rest (!isName)

/-- Modelled from the spec: `processTemplate` of the missing `helpers` module.
A template references a name as `$name$`; a malformed template (an
unterminated `$` token, i.e. an odd number of `$`, i.e. an even number of
split segments) raises an error, otherwise every bound referenced name is
substituted. -/
def processTemplate (message : String) (params : List (String × String)) :
    Except String String :=
  let segs := splitDollar message.toList
  if segs.length % 2 = 1 then .ok (substituteSegments params segs false)
  else .error "malformed template"

/-- The lookup on line 148:
`fetchedLocaleMessages.target?.[messageName] ?? fetchedLocaleMessages.fallback?.[messageName]`. -/
def lookupMessage (st : ResolverState) (messageName : String) : Option LocaleMessage :=
  (st.fetchedLocaleMessages.target.bind fun b => b.lookup messageName) <|>
    (st.fetchedLocaleMessages.fallback.bind fun b => b.lookup messageName)

/-- `getMessage`: resolve a key against target-then-fallback; absent key gives
`""`; a message without placeholders returns its raw template; otherwise the
parameter object is built and the template processed, any error being caught
and converted to `""`. -/
def getMessage (st : ResolverState) (messageName : String)
    (substitutions : Substitutions) : String :=
  match lookupMessage st messageName with
  | none => ""
  | some val =>
    match val.placeholders with
    | some _ =>
      match processTemplate val.message (buildParams val.placeholderList (toList substitutions)) with
      | .ok s => s
      | .error _ => ""
    | none => val.message

/-! ### JS numeric conversion of placeholder contents

`appendPlaceholderLists` computes `const index = +content.substring(1) - 1`
and then stores `val.placeholderList[index] = pKey`.  The unary `+` is the
ECMAScript ToNumber conversion of a string: trim ECMAScript whitespace and
line terminators, then accept the empty string (0), `Infinity` with an
optional sign, an unsigned hex/octal/binary integer literal (`0x`/`0o`/`0b`),
or an optionally signed decimal literal with optional fraction and exponent;
everything else is NaN.  The store is observable through the natural-number
reads `placeholderList?.[i]` exactly when the converted value is an integer
`n ≥ 1` (the store then lands on index `n - 1`); NaN, zero, negative,
non-integral and infinite values store under property names no natural-number
read ever uses.

The conversion is modelled with exact integer arithmetic over the ToNumber
grammar.  IEEE-754 rounding is not modelled: a positive non-integral
mathematical value (whose rounding may or may not land on an integer) is
classified `posFrac`, and a positive integral value is kept exact even above
`2^53` (where the JS double may round it elsewhere).  `contentTame` below
delimits the rounding-insensitive fragment on which this model provably
coincides with the JS computation; the placeholder-position theorem assumes
it. -/

/-- ECMAScript WhiteSpace and LineTerminator code points (trimmed by
ToNumber): TAB, LF, VT, FF, CR, SP, NBSP, Ogham space, the `2000`–`200A`
spaces, LS, PS, NNBSP, MMSP, ideographic space and the BOM. -/
def isJsWhitespace (c : Char) : Bool :=
  c.toNat = 9 ∨ c.toNat = 10 ∨ c.toNat = 11 ∨ c.toNat = 12 ∨ c.toNat = 13 ∨
    c.toNat = 32 ∨ c.toNat = 160 ∨ c.toNat = 0x1680 ∨
    (0x2000 ≤ c.toNat ∧ c.toNat ≤ 0x200A) ∨ c.toNat = 0x2028 ∨
    c.toNat = 0x2029 ∨ c.toNat = 0x202F ∨ c.toNat = 0x205F ∨
    c.toNat = 0x3000 ∨ c.toNat = 0xFEFF

/-- Trim ECMAScript whitespace from both ends. -/
def jsTrim (cs : List Char) : List Char :=
  ((cs.dropWhile isJsWhitespace).reverse.dropWhile isJsWhitespace).reverse

/-- Value of a decimal-digit list (callers guarantee digits only). -/
def natOfDigits (cs : List Char) : Nat :=
  cs.foldl (fun acc c => acc * 10 + (c.toNat - 48)) 0

/-- Hex digit value. -/
def hexDigitVal (c : Char) : Option Nat :=
  if c.isDigit then some (c.toNat - 48)
  else if 97 ≤ c.toNat ∧ c.toNat ≤ 102 then some (c.toNat - 87)
  else if 65 ≤ c.toNat ∧ c.toNat ≤ 70 then some (c.toNat - 55)
  else none

/-- Octal digit value. -/
def octDigitVal (c : Char) : Option Nat :=
  if 48 ≤ c.toNat ∧ c.toNat ≤ 55 then some (c.toNat - 48) else none

/-- Binary digit value. -/
def binDigitVal (c : Char) : Option Nat :=
  if c.toNat = 48 then some 0 else if c.toNat = 49 then some 1 else none

/-- Parse a nonempty digit run in the given base; any bad digit is NaN. -/
def parseRadixAux (base : Nat) (dv : Char → Option Nat) :
    List Char → Nat → Option Nat
  | [], acc => some acc
  | c :: rest, acc =>
      match dv c with
      | some d => parseRadixAux base dv rest (acc * base + d)
      | none => none

/-- Parse a nonempty digit list in the given base. -/
def parseRadix (base : Nat) (dv : Char → Option Nat) : List Char → Option Nat
  | [] => none
  | cs => parseRadixAux base dv cs 0

/-- Parse an exponent part: empty, or `e`/`E` with an optional sign and a
nonempty digit run consuming the rest of the literal. -/
def parseExpPart : List Char → Option Int
  | [] => some 0
  | c :: rest =>
      if c.toNat = 101 ∨ c.toNat = 69 then
        match rest with
        | '+' :: ds =>
            if ds.isEmpty then none
            else if ds.all (fun d => d.isDigit) then some (natOfDigits ds) else none
        | '-' :: ds =>
            if ds.isEmpty then none
            else if ds.all (fun d => d.isDigit) then some (-(natOfDigits ds : Int)) else none
        | ds =>
            if ds.isEmpty then none
            else if ds.all (fun d => d.isDigit) then some (natOfDigits ds) else none
      else none

/-- Parse an unsigned decimal literal `digits [. digits?] [exp]` or
`. digits [exp]`, returning the mantissa digits' value, the fraction length
and the exponent; the mathematical value is `M * 10 ^ (e - fl)`. -/
def parseUnsignedDecimal (cs : List Char) : Option (Nat × Nat × Int) :=
  let intPart := cs.takeWhile (fun c => c.isDigit)
  let rest1 := cs.dropWhile (fun c => c.isDigit)
  match rest1 with
  | '.' :: rest2 =>
      let fracPart := rest2.takeWhile (fun c => c.isDigit)
      let rest3 := rest2.dropWhile (fun c => c.isDigit)
      if intPart.isEmpty && fracPart.isEmpty then none
      else
        match parseExpPart rest3 with
        | some e => some (natOfDigits (intPart ++ fracPart), fracPart.length, e)
        | none => none
  | _ =>
      if intPart.isEmpty then none
      else
        match parseExpPart rest1 with
        | some e => some (natOfDigits intPart, 0, e)
        | none => none

/-- Observable class of a converted content value with respect to the store
`placeholderList[value - 1] = pKey` and the natural-number reads
`placeholderList?.[i]`. -/
inductive JsIndexVal where
  | invisible : JsIndexVal
  | intVal : Nat → JsIndexVal
  | posFrac : JsIndexVal
  deriving DecidableEq, Repr

/-- Classify a parsed positive decimal: zero is invisible; an integral
mathematical value `n ≥ 1` is `intVal n`; a non-integral positive value is
`posFrac` (its visibility depends on IEEE-754 rounding, not modelled). -/
def classifyPosValue (M fl : Nat) (e : Int) : JsIndexVal :=
  if M = 0 then .invisible
  else
    let k : Int := e - fl
    if 0 ≤ k then .intVal (M * 10 ^ k.toNat)
    else if M % 10 ^ (-k).toNat = 0 then .intVal (M / 10 ^ (-k).toNat)
    else .posFrac

/-- Classify an unsigned decimal literal; an unparseable literal is NaN,
hence invisible. -/
def decimalClassify (cs : List Char) : JsIndexVal :=
  match parseUnsignedDecimal cs with
  | some (M, fl, e) => classifyPosValue M fl e
  | none => .invisible

/-- Classify a radix (hex/octal/binary) digit run: NaN or zero are
invisible, a positive value is integral. -/
def radixClassify (base : Nat) (dv : Char → Option Nat) (ds : List Char) :
    JsIndexVal :=
  match parseRadix base dv ds with
  | some n => if n = 0 then .invisible else .intVal n
  | none => .invisible

/-- Classify a trimmed literal with no sign: `Infinity`, a `0x`/`0o`/`0b`
integer literal, or a decimal literal. -/
def classifyUnsignedChars (cs : List Char) : JsIndexVal :=
  if cs == "Infinity".toList then .invisible
  else
    match cs with
    | '0' :: x :: ds =>
        if x.toNat = 120 ∨ x.toNat = 88 then radixClassify 16 hexDigitVal ds
        else if x.toNat = 111 ∨ x.toNat = 79 then radixClassify 8 octDigitVal ds
        else if x.toNat = 98 ∨ x.toNat = 66 then radixClassify 2 binDigitVal ds
        else decimalClassify cs
    | _ => decimalClassify cs

/-- ToNumber of a content suffix, classified by index visibility.  The empty
trimmed string converts to 0 (invisible).  A leading `-` yields a value that
is NaN or at most zero either way, hence invisible.  A leading `+` admits
only `Infinity` or a decimal literal (signed hex is NaN). -/
def jsIndexValueChars (cs0 : List Char) : JsIndexVal :=
  match jsTrim cs0 with
  | [] => .invisible
  | '+' :: rest =>
      if rest == "Infinity".toList then .invisible
      else decimalClassify rest
  | '-' :: _ => .invisible
  | cs => classifyUnsignedChars cs

/-- The index computation `+content.substring(1) - 1` followed by the store
`placeholderList[index] = pKey`, expressed as the natural array index the
store is observable at (`some (n - 1)` for a converted integer value
`n ≥ 1`), or `none` when the store lands on a property no natural-number read
uses.  Faithful to the JS computation on every content that `contentTame`
accepts; see the note above on the IEEE-754 residue. -/
def decodeIndex (content : String) : Option Nat :=
  match jsIndexValueChars (content.toList.drop 1) with
  | .intVal n => some (n - 1)
  | _ => none

/-- A content is tame when its converted value does not depend on IEEE-754
rounding: NaN, nonpositive and infinite values (invisible regardless of
rounding), and positive integers up to `2^53` (exactly representable, so the
JS double equals the mathematical value).  Excluded are positive non-integral
values and integers above `2^53`. -/
def contentTame (content : String) : Bool :=
  match jsIndexValueChars (content.toList.drop 1) with
  | .invisible => true
  | .intVal n => decide (n ≤ 2 ^ 53)
  | .posFrac => false

/-- JS sparse-array write `arr[i] = v`: in range it overwrites, past the end
it extends the array with holes. -/
def setIdx (l : List (Option String)) (i : Nat) (v : String) : List (Option String) :=
  if i < l.length then l.set i (some v)
  else l ++ List.replicate (i - l.length) none ++ [some v]

/-- The `for (const pKey in val.placeholders)` loop of
`appendPlaceholderLists`, threading the array being built: a descriptor with
no `content` string throws (`Except.error`); otherwise the placeholder name is
stored at the decoded index. -/
def buildPlaceholderListAux :
    List (String × PlaceholderDescr) → List (Option String) →
      Except String (List (Option String))
  | [], acc => .ok acc
  | (pKey, d) :: rest, acc =>
      match d.content with
      | none => .error "placeholder content missing"
      | some c =>
        match decodeIndex c with
        | some idx => buildPlaceholderListAux rest (setIdx acc idx pKey)
        | none => buildPlaceholderListAux rest acc

/-- The placeholder list derived for one message (`val.placeholderList = []`
followed by the loop). -/
def buildPlaceholderList (phs : List (String × PlaceholderDescr)) :
    Except String (List (Option String)) :=
  buildPlaceholderListAux phs []

/-- The per-message body of `appendPlaceholderLists`: attach the derived
`placeholderList` when the message declares placeholders. -/
def processMessage (val : LocaleMessage) : Except String LocaleMessage :=
  match val.placeholders with
  | some phs =>
    match buildPlaceholderList phs with
    | .ok pl => .ok { val with placeholderList := some pl }
    | .error e => .error e
  | none => .ok val

/-- `appendPlaceholderLists` over a whole bundle; an error raised for any one
message aborts the whole traversal (the JS loop throws out of
`fetchLocaleMessages`'s `try`). -/
def appendPlaceholderLists :
    LocaleMessages → Except String LocaleMessages
  | [] => .ok []
  | (name, val) :: rest =>
      match processMessage val with
      | .error e => .error e
      | .ok v2 =>
        match appendPlaceholderLists rest with
        | .error e => .error e
        | .ok rest2 => .ok ((name, v2) :: rest2)

/-- `fetchLocaleMessages`, as a function of the fetch-and-parse outcome
(`none` models a failed `fetch` or malformed JSON): the whole body is inside
`try`, so a failed fetch or a throwing `appendPlaceholderLists` both yield
`null`. -/
def fetchLocaleMessages (fetched : Option LocaleMessages) : Option LocaleMessages :=
  match fetched with
  | none => none
  | some messages =>
    match appendPlaceholderLists messages with
    | .ok m => some m
    | .error _ => none

/-- Lookup in the static cldrjs table: `(cldrjsLocales)[locale]`. -/
def lookupCldr (table : CldrTable) (locale : String) : Option CldrLocale :=
  table.entries.lookup locale

/-- `init`, as a function of the collaborators it reads: the saved locale
(`getSavedLocale()`), the native UI locale, the manifest default locale, and
the per-locale fetch-and-parse outcome.  The target slot is fetched for
`saved || native`, the fallback slot for the default locale, and the cldr
metadata is recomputed as `cldrjsLocales[getCurrentLocale()] || cldrjsLocales.en`. -/
def init (table : CldrTable) (saved : Option String) (native deflt : String)
    (fetchRaw : String → Option LocaleMessages) : ResolverState :=
  { fetchedLocaleMessages :=
      { target := fetchLocaleMessages (fetchRaw (jsOrString saved native))
        fallback := fetchLocaleMessages (fetchRaw deflt) }
    cldrLocale := (lookupCldr table (getCurrentLocale saved native)).getD table.en }

/-- `getCldrLocale`. -/
def getCldrLocale (st : ResolverState) : CldrLocale :=
  st.cldrLocale

/-- `getNumberSymbols`: `cldrLocale.numbers['symbols-numberSystem-latn']`. -/
def getNumberSymbols (st : ResolverState) : NumberSymbols :=
  st.cldrLocale.numbers.symbolsNumberSystemLatn

/-! ## Event-loop model of concurrent `init` calls

`init` runs on a single-threaded event loop: its only effects on shared state
are (a) the two local writes `refetched.target = …` and `refetched.fallback = …`
performed when each awaited fetch settles, and (b) the single assignment
`fetchedLocaleMessages = refetched` performed after `Promise.all` resolves,
i.e. after both fetches have settled.  Each in-flight `init` call is a
`LoadCall`; the interleaving of any number of overlapping calls with reads of
the global is a sequence of atomic `LoadEvent`s. -/

/-- The local `refetched` record of one in-flight `init` call plus its control
position: `tgt`/`fb` are `none` until the corresponding fetch settles, then
`some r` with `r` the fetch result (`r = none` for a failed fetch);
`published` records whether the final assignment has run. -/
structure LoadCall where
  tgt : Option (Option LocaleMessages)
  fb : Option (Option LocaleMessages)
  published : Bool
  deriving DecidableEq, Repr

/-- The shared global plus all `init` calls started so far. -/
structure LoadSystem where
  globalMessages : FetchedLocaleMessages
  loads : List LoadCall
  deriving DecidableEq, Repr

/-- Atomic event-loop steps: a new `init` call starting, one of a call's two
fetches settling (with its result), or a call's final assignment running. -/
inductive LoadEvent where
  | start : LoadEvent
  | targetSettled : Nat → Option LocaleMessages → LoadEvent
  | fallbackSettled : Nat → Option LocaleMessages → LoadEvent
  | publish : Nat → LoadEvent

/-- Replace the element at position `i` by `f` applied to it. -/
def modifyAt {α : Type} : List α → Nat → (α → α) → List α
  | [], _, _ => []
  | a :: as, 0, f => f a :: as
  | a :: as, n + 1, f => a :: modifyAt as n f

/-- One event-loop step.  A fetch settles at most once (a promise is resolved
once), and the final assignment is enabled only once both fetches of that call
have settled (`Promise.all`) and runs at most once; it copies the call's
complete local record into the global in a single assignment. -/
def loadStep (s : LoadSystem) : LoadEvent → LoadSystem
  | .start => { s with loads := s.loads ++ [⟨none, none, false⟩] }
  | .targetSettled i r =>
      match s.loads[i]? with
      | some ld =>
        if ld.tgt = none then
          { s with loads := modifyAt s.loads i (fun l => { l with tgt := some r }) }
        else s
      | none => s
  | .fallbackSettled i r =>
      match s.loads[i]? with
      | some ld =>
        if ld.fb = none then
          { s with loads := modifyAt s.loads i (fun l => { l with fb := some r }) }
        else s
      | none => s
  | .publish i =>
      match s.loads[i]? with
      | some ld =>
        match ld.tgt, ld.fb with
        | some rt, some rf =>
          if ld.published then s
          else
            { globalMessages := { target := rt, fallback := rf }
              loads := modifyAt s.loads i (fun l => { l with published := true }) }
        | _, _ => s
      | none => s

/-- Run a whole interleaving. -/
def loadRun (s : LoadSystem) : List LoadEvent → LoadSystem
  | [] => s
  | e :: es => loadRun (loadStep s e) es

/-- The global is a complete pair: either still the pre-existing pair `g0`, or
exactly the pair of settled results of one single published `init` call —
never a mix of two sources. -/
def globalComplete (g0 : FetchedLocaleMessages) (s : LoadSystem) : Prop :=
  s.globalMessages = g0 ∨
    ∃ (i : Nat) (ld : LoadCall), s.loads[i]? = some ld ∧ ld.published = true ∧
      ld.tgt = some s.globalMessages.target ∧ ld.fb = some s.globalMessages.fallback

/-! ## Concrete sample data -/

/-- Baseline symbol table sample. -/
def symbolsEnSample : NumberSymbols := { decimal := ".", group := "," }

/-- Baseline cldr entry sample. -/
def cldrEnSample : CldrLocale := { numbers := { symbolsNumberSystemLatn := symbolsEnSample } }

/-- A second cldr entry sample. -/
def cldrRuSample : CldrLocale :=
  { numbers := { symbolsNumberSystemLatn := { decimal := ",", group := " " } } }

/-- A sample static table holding `en` and `ru` entries. -/
def cldrTableSample : CldrTable :=
  { entries := [("en", cldrEnSample), ("ru", cldrRuSample)], en := cldrEnSample }

/-- A message with one placeholder bound to argument position 0. -/
def msgGreet : LocaleMessage :=
  { message := "Hi $name$", placeholders := some [("name", { content := some "$1" })],
    placeholderList := some [some "name"] }

/-- A message whose template has an unterminated `$` token. -/
def msgBadTemplate : LocaleMessage :=
  { message := "Hi $name", placeholders := some [("name", { content := some "$1" })],
    placeholderList := some [some "name"] }

/-- A message with a malformed placeholder descriptor (no `content`). -/
def msgBadDescr : LocaleMessage :=
  { message := "x", placeholders := some [("p", { content := none })],
    placeholderList := none }

/-- A resolver state whose target bundle holds only the malformed-template
message under `"bad"`. -/
def stSampleBad : ResolverState :=
  { fetchedLocaleMessages := { target := some [("bad", msgBadTemplate)], fallback := none }
    cldrLocale := cldrEnSample }

/-- A wire-format message with two placeholders, declared out of order:
`"other"` refers to argument position 2, `"name"` to position 1. -/
def msgTwoWire : LocaleMessage :=
  { message := "Hi $name$ and $other$"
    placeholders := some [("other", { content := some "$2" }), ("name", { content := some "$1" })]
    placeholderList := none }

/-- `msgTwoWire` after load-time processing: names stored at the decoded
positions. -/
def msgTwoProcessed : LocaleMessage :=
  { message := "Hi $name$ and $other$"
    placeholders := some [("other", { content := some "$2" }), ("name", { content := some "$1" })]
    placeholderList := some [some "name", some "other"] }

/-! ## Helper lemmas -/

theorem lookupMessage_eq_none_of_slots_none (st : ResolverState) (k : String)
    (ht : st.fetchedLocaleMessages.target = none)
    (hf : st.fetchedLocaleMessages.fallback = none) :
    lookupMessage st k = none := by
  simp [lookupMessage, ht, hf]

theorem getMessage_eq_empty_of_lookup_none (st : ResolverState) (k : String)
    (subs : Substitutions) (h : lookupMessage st k = none) :
    getMessage st k subs = "" := by
  simp [getMessage, h]

/-! ## Claims -/

/-- Claim C3: an error raised during template processing inside `getMessage`
is caught and converted to the empty string; `getMessage` is total, so no
exception propagates to its caller. -/
theorem getMessage_catches_template_error (st : ResolverState) (k : String)
    (subs : Substitutions) (val : LocaleMessage) (e : String)
    (ph : List (String × PlaceholderDescr))
    (hval : lookupMessage st k = some val) (hph : val.placeholders = some ph)
    (herr : processTemplate val.message
        (buildParams val.placeholderList (toList subs)) = .error e) :
    getMessage st k subs = "" := by
  simp [getMessage, hval, hph, herr]

/-- Witness for C3: a message whose template has an unterminated `$` token
makes processing fail, and the resolved string is empty. -/
theorem getMessage_catches_template_error_witness :
    getMessage stSampleBad "bad" (.single "Ann") = "" :=
  getMessage_catches_template_error stSampleBad "bad" (.single "Ann") msgBadTemplate
    "malformed template" [("name", { content := some "$1" })] rfl rfl rfl

/-- Claim C4: `init` is a total function of its fetch outcomes (it never
rejects); a failed fetch records its slot as `none`, and when both fetches
fail every subsequent `getMessage` call returns the empty string for every
key. -/
theorem init_both_fetches_fail (table : CldrTable) (saved : Option String)
    (native deflt : String) (fetchRaw : String → Option LocaleMessages)
    (ht : fetchRaw (jsOrString saved native) = none) (hf : fetchRaw deflt = none) :
    (init table saved native deflt fetchRaw).fetchedLocaleMessages.target = none ∧
    (init table saved native deflt fetchRaw).fetchedLocaleMessages.fallback = none ∧
    ∀ (k : String) (subs : Substitutions),
      getMessage (init table saved native deflt fetchRaw) k subs = "" := by
  have h1 : (init table saved native deflt fetchRaw).fetchedLocaleMessages.target = none := by
    simp [init, ht, fetchLocaleMessages]
  have h2 : (init table saved native deflt fetchRaw).fetchedLocaleMessages.fallback = none := by
    simp [init, hf, fetchLocaleMessages]
  exact ⟨h1, h2, fun k subs =>
    getMessage_eq_empty_of_lookup_none _ _ _
      (lookupMessage_eq_none_of_slots_none _ _ h1 h2)⟩

/-- Witness for C4: with every fetch failing, both slots are absent and an
arbitrary key resolves to the empty string. -/
theorem init_both_fetches_fail_witness :
    (init cldrTableSample none "en" "en" fun _ => none).fetchedLocaleMessages.target
      = none ∧
    getMessage (init cldrTableSample none "en" "en" fun _ => none) "anyKey" .undef
      = "" :=
  ⟨(init_both_fetches_fail cldrTableSample none "en" "en" (fun _ => none) rfl rfl).1,
    (init_both_fetches_fail cldrTableSample none "en" "en" (fun _ => none) rfl rfl).2.2
      "anyKey" .undef⟩

/-- Claim C7: a single non-list substitution is resolved exactly like the
one-element argument list. -/
theorem getMessage_single_eq_singleton (st : ResolverState) (k v : String) :
    getMessage st k (.single v) = getMessage st k (.multiple [v]) := rfl

/-- Claim C8: when the active locale has no entry in the static table, `init`
defaults the cached metadata to the baseline `en` entry, so
`getNumberSymbols` returns the baseline symbol table. -/
theorem init_cldr_defaults_to_baseline (table : CldrTable) (saved : Option String)
    (native deflt : String) (fetchRaw : String → Option LocaleMessages)
    (h : lookupCldr table (getCurrentLocale saved native) = none) :
    getCldrLocale (init table saved native deflt fetchRaw) = table.en ∧
    getNumberSymbols (init table saved native deflt fetchRaw) =
      table.en.numbers.symbolsNumberSystemLatn := by
  constructor <;> simp [getCldrLocale, getNumberSymbols, init, h]

/-- Witness for C8: the locale `"xx"` has no entry in the sample table, and
the baseline symbols are returned. -/
theorem init_cldr_defaults_to_baseline_witness :
    getNumberSymbols (init cldrTableSample none "xx" "en" fun _ => none)
      = symbolsEnSample :=
  (init_cldr_defaults_to_baseline cldrTableSample none "xx" "en"
    (fun _ => none) (by decide)).2

/-- Claim C10: before any `init` completes the resolver is in a well-defined
degraded state: both bundle slots are null so every key resolves to the empty
string, and the cached metadata is the baseline entry so `getCldrLocale` and
`getNumberSymbols` return the defined baseline values; no operation throws or
returns undefined, all being total functions. -/
theorem initial_state_degraded (table : CldrTable) (k : String)
    (subs : Substitutions) :
    getMessage (initialResolverState table) k subs = "" ∧
    getCldrLocale (initialResolverState table) = table.en ∧
    getNumberSymbols (initialResolverState table) =
      table.en.numbers.symbolsNumberSystemLatn :=
  ⟨rfl, rfl, rfl⟩

theorem buildPlaceholderListAux_error_of_missing_content (pk : String)
    (phs : List (String × PlaceholderDescr))
    (hm : (pk, ({ content := none } : PlaceholderDescr)) ∈ phs) :
    ∀ acc, ∃ e, buildPlaceholderListAux phs acc = .error e := by
  induction phs with
  | nil => exact absurd hm (List.not_mem_nil _)
  | cons hd tl ih =>
      intro acc
      obtain ⟨pk1, d1⟩ := hd
      rcases List.mem_cons.mp hm with heq | hmem
      · obtain ⟨h1, h2⟩ := Prod.mk.injEq .. ▸ heq.symm
        subst h2
        exact ⟨"placeholder content missing", by simp [buildPlaceholderListAux]⟩
      · cases hcon : d1.content with
        | none => exact ⟨"placeholder content missing", by simp [buildPlaceholderListAux, hcon]⟩
        | some c =>
          cases hdec : decodeIndex c with
          | some idx =>
              obtain ⟨e, he⟩ := ih hmem (setIdx acc idx pk1)
              exact ⟨e, by simp [buildPlaceholderListAux, hcon, hdec, he]⟩
          | none =>
              obtain ⟨e, he⟩ := ih hmem acc
              exact ⟨e, by simp [buildPlaceholderListAux, hcon, hdec, he]⟩

theorem processMessage_error_of_missing_content (v : LocaleMessage)
    (phs : List (String × PlaceholderDescr)) (pk : String)
    (hph : v.placeholders = some phs)
    (hm : (pk, ({ content := none } : PlaceholderDescr)) ∈ phs) :
    ∃ e, processMessage v = .error e := by
  obtain ⟨e, he⟩ := buildPlaceholderListAux_error_of_missing_content pk phs hm []
  exact ⟨e, by simp [processMessage, hph, buildPlaceholderList, he]⟩

theorem appendPlaceholderLists_error_of_member (messages : LocaleMessages)
    (name : String) (v : LocaleMessage) (hm : (name, v) ∈ messages)
    (hv : ∃ e, processMessage v = .error e) :
    ∃ e, appendPlaceholderLists messages = .error e := by
  induction messages with
  | nil => exact absurd hm (List.not_mem_nil _)
  | cons hd tl ih =>
      obtain ⟨n1, v1⟩ := hd
      rcases List.mem_cons.mp hm with heq | hmem
      · obtain ⟨h1, h2⟩ := Prod.mk.injEq .. ▸ heq
        obtain ⟨e, he⟩ := hv
        exact ⟨e, by simp [appendPlaceholderLists, ← h2, he]⟩
      · cases hp : processMessage v1 with
        | error e => exact ⟨e, by simp [appendPlaceholderLists, hp]⟩
        | ok v2 =>
            obtain ⟨e, he⟩ := ih hmem
            exact ⟨e, by simp [appendPlaceholderLists, hp, he]⟩

/-- Claim C9: a single malformed placeholder descriptor (one missing its
`content` string) makes the fetch of that entire locale return null, so the
whole bundle slot is recorded absent and every key of that locale — not only
the malformed message — is resolved as if the bundle were missing, falling
through to the other bundle or to the empty string. -/
theorem fetch_none_of_malformed_descriptor (messages : LocaleMessages)
    (name : String) (v : LocaleMessage) (phs : List (String × PlaceholderDescr))
    (pk : String) (hm : (name, v) ∈ messages) (hph : v.placeholders = some phs)
    (hpd : (pk, ({ content := none } : PlaceholderDescr)) ∈ phs) :
    fetchLocaleMessages (some messages) = none ∧
    ∀ (other : Option LocaleMessages) (cl : CldrLocale) (k : String)
      (subs : Substitutions),
      getMessage ⟨⟨fetchLocaleMessages (some messages), other⟩, cl⟩ k subs =
        getMessage ⟨⟨none, other⟩, cl⟩ k subs := by
  have h1 : fetchLocaleMessages (some messages) = none := by
    obtain ⟨e, he⟩ := appendPlaceholderLists_error_of_member messages name v hm
      (processMessage_error_of_missing_content v phs pk hph hpd)
    simp [fetchLocaleMessages, he]
  exact ⟨h1, fun other cl k subs => by rw [h1]⟩

/-- Witness for C9: a one-message bundle whose only placeholder descriptor
lacks `content` is fetched as null, and its keys resolve as if absent. -/
theorem fetch_none_of_malformed_descriptor_witness :
    fetchLocaleMessages (some [("m", msgBadDescr)]) = none ∧
      getMessage ⟨⟨fetchLocaleMessages (some [("m", msgBadDescr)]), none⟩,
        cldrEnSample⟩ "m" .undef = "" :=
  ⟨(fetch_none_of_malformed_descriptor [("m", msgBadDescr)] "m" msgBadDescr
      [("p", { content := none })] "p" (by decide) rfl (by decide)).1,
    by
      rw [(fetch_none_of_malformed_descriptor [("m", msgBadDescr)] "m" msgBadDescr
        [("p", { content := none })] "p" (by decide) rfl (by decide)).2
          none cldrEnSample "m" .undef]
      rfl⟩

theorem setIdx_length_bounds (l : List (Option String)) (i : Nat) (v : String) :
    l.length ≤ (setIdx l i v).length ∧ i < (setIdx l i v).length := by
  unfold setIdx
  by_cases h : i < l.length
  · simp [h]
  · simp only [h, if_false, List.length_append, List.length_replicate,
      List.length_cons, List.length_nil]
    omega

theorem setIdx_getElem_self (l : List (Option String)) (i : Nat) (v : String) :
    (setIdx l i v)[i]? = some (some v) := by
  unfold setIdx
  by_cases h : i < l.length
  · simp [h, List.getElem?_set_eq_of_lt]
  · simp only [h, if_false]
    rw [List.getElem?_append_right
      (by simp only [List.length_append, List.length_replicate]; omega)]
    simp only [List.length_append, List.length_replicate]
    rw [show i - (l.length + (i - l.length)) = 0 from by omega]
    rfl

theorem setIdx_getElem_preserve (l : List (Option String)) (i j : Nat) (v : String)
    (hj : j < l.length) (hne : j ≠ i) :
    (setIdx l i v)[j]? = l[j]? := by
  unfold setIdx
  by_cases h : i < l.length
  · simp [h, List.getElem?_set_ne (fun he => hne he.symm)]
  · simp only [h, if_false]
    rw [List.getElem?_append_left
      (by simp only [List.length_append, List.length_replicate]; omega)]
    rw [List.getElem?_append_left hj]

theorem buildPlaceholderListAux_keeps (i : Nat) (pk : String)
    (phs : List (String × PlaceholderDescr)) :
    ∀ (acc pl : List (Option String)),
      (∀ q ∈ phs, ∀ c2, q.2.content = some c2 → decodeIndex c2 = some i → q.1 = pk) →
      i < acc.length → acc[i]? = some (some pk) →
      buildPlaceholderListAux phs acc = .ok pl → pl[i]? = some (some pk) := by
  induction phs with
  | nil =>
      intro acc pl _ _ hacc hok
      obtain rfl : acc = pl := by simpa [buildPlaceholderListAux] using hok
      exact hacc
  | cons hd tl ih =>
      intro acc pl hq hlen hacc hok
      obtain ⟨pk1, d1⟩ := hd
      cases hcon : d1.content with
      | none => simp [buildPlaceholderListAux, hcon] at hok
      | some c =>
        cases hdec : decodeIndex c with
        | some idx =>
            rw [show buildPlaceholderListAux ((pk1, d1) :: tl) acc =
                buildPlaceholderListAux tl (setIdx acc idx pk1) from by
              simp [buildPlaceholderListAux, hcon, hdec]] at hok
            by_cases hii : idx = i
            · subst hii
              have hpk1 : pk1 = pk := hq (pk1, d1) (List.mem_cons_self _ _) c hcon hdec
              subst hpk1
              exact ih (setIdx acc idx pk1) pl
                (fun q hqm => hq q (List.mem_cons_of_mem _ hqm))
                (setIdx_length_bounds acc idx pk1).2 (setIdx_getElem_self acc idx pk1) hok
            · exact ih (setIdx acc idx pk1) pl
                (fun q hqm => hq q (List.mem_cons_of_mem _ hqm))
                (lt_of_lt_of_le hlen (setIdx_length_bounds acc idx pk1).1)
                (by rw [setIdx_getElem_preserve acc idx i pk1 hlen
                  (fun he => hii he.symm)]; exact hacc) hok
        | none =>
            rw [show buildPlaceholderListAux ((pk1, d1) :: tl) acc =
                buildPlaceholderListAux tl acc from by
              simp [buildPlaceholderListAux, hcon, hdec]] at hok
            exact ih acc pl (fun q hqm => hq q (List.mem_cons_of_mem _ hqm)) hlen hacc hok

theorem buildPlaceholderListAux_stores (i : Nat) (pk c : String)
    (hdec : decodeIndex c = some i) (phs : List (String × PlaceholderDescr)) :
    ∀ (acc pl : List (Option String)),
      (pk, ({ content := some c } : PlaceholderDescr)) ∈ phs →
      (∀ q ∈ phs, ∀ c2, q.2.content = some c2 → decodeIndex c2 = some i →
        q = (pk, { content := some c })) →
      buildPlaceholderListAux phs acc = .ok pl → pl[i]? = some (some pk) := by
  induction phs with
  | nil =>
      intro acc pl hm _ _
      exact absurd hm (List.not_mem_nil _)
  | cons hd tl ih =>
      intro acc pl hm huniq hok
      obtain ⟨pk1, d1⟩ := hd
      by_cases hhd : (pk1, d1) = (pk, ({ content := some c } : PlaceholderDescr))
      · obtain ⟨h1, h2⟩ := Prod.mk.injEq .. ▸ hhd
        subst h1
        subst h2
        rw [show buildPlaceholderListAux ((pk1, { content := some c }) :: tl) acc =
            buildPlaceholderListAux tl (setIdx acc i pk1) from by
          simp [buildPlaceholderListAux, hdec]] at hok
        exact buildPlaceholderListAux_keeps i pk1 tl (setIdx acc i pk1) pl
          (fun q hqm c2 hc2 hd2 => by
            rw [huniq q (List.mem_cons_of_mem _ hqm) c2 hc2 hd2])
          (setIdx_length_bounds acc i pk1).2 (setIdx_getElem_self acc i pk1) hok
      · have hmem : (pk, ({ content := some c } : PlaceholderDescr)) ∈ tl := by
          rcases List.mem_cons.mp hm with heq | h
          · exact absurd heq.symm hhd
          · exact h
        cases hcon : d1.content with
        | none => simp [buildPlaceholderListAux, hcon] at hok
        | some c2 =>
          cases hdec2 : decodeIndex c2 with
          | some idx =>
              rw [show buildPlaceholderListAux ((pk1, d1) :: tl) acc =
                  buildPlaceholderListAux tl (setIdx acc idx pk1) from by
                simp [buildPlaceholderListAux, hcon, hdec2]] at hok
              exact ih (setIdx acc idx pk1) pl hmem
                (fun q hqm => huniq q (List.mem_cons_of_mem _ hqm)) hok
          | none =>
              rw [show buildPlaceholderListAux ((pk1, d1) :: tl) acc =
                  buildPlaceholderListAux tl acc from by
                simp [buildPlaceholderListAux, hcon, hdec2]] at hok
              exact ih acc pl hmem
                (fun q hqm => huniq q (List.mem_cons_of_mem _ hqm)) hok

/-- Claim C5: the derived `placeholderList` maps position to placeholder name
exactly as decoded from each descriptor: a placeholder whose `content` is the
string `"$N"` decodes (`decodeIndex`, the exact model of
`+content.substring(1) - 1` over the ToNumber grammar) to the 0-based index
`N-1`, and — provided every descriptor of the message is `contentTame` (its
conversion does not depend on IEEE-754 rounding, so the model provably
matches the JS computation) and no other descriptor decodes to the same
position — the per-message processing performed at load time stores the
placeholder's name at exactly that index of `placeholderList`. -/
theorem placeholderList_maps_position_to_name (v v2 : LocaleMessage)
    (phs : List (String × PlaceholderDescr)) (pk c : String) (i : Nat)
    (hph : v.placeholders = some phs)
    (hm : (pk, ({ content := some c } : PlaceholderDescr)) ∈ phs)
    (hdec : decodeIndex c = some i)
    (htame : ∀ q ∈ phs, ∀ c2, q.2.content = some c2 → contentTame c2 = true)
    (huniq : ∀ q ∈ phs, ∀ c2, q.2.content = some c2 → decodeIndex c2 = some i →
      q = (pk, { content := some c }))
    (hok : processMessage v = .ok v2) :
    ∃ pl, v2.placeholderList = some pl ∧ pl[i]? = some (some pk) := by
  cases hbl : buildPlaceholderList phs with
  | error e => simp [processMessage, hph, hbl] at hok
  | ok pl =>
      have hv2 : v2 = { v with placeholderList := some pl } := by
        simpa [processMessage, hph, hbl] using hok.symm
      subst hv2
      exact ⟨pl, rfl, buildPlaceholderListAux_stores i pk c hdec phs [] pl hm huniq
        (by simpa [buildPlaceholderList] using hbl)⟩

/-- Witness for C5: the placeholder `"other"`, whose descriptor content is
`"$2"`, is stored at index 1 of the derived list. -/
theorem placeholderList_maps_position_to_name_witness :
    ∃ pl, msgTwoProcessed.placeholderList = some pl ∧ pl[1]? = some (some "other") :=
  placeholderList_maps_position_to_name msgTwoWire msgTwoProcessed
    [("other", { content := some "$2" }), ("name", { content := some "$1" })]
    "other" "$2" 1 rfl (by decide) (by decide)
    (by
      intro q hq c2 hc2
      rcases List.mem_cons.mp hq with rfl | hq2
      · obtain rfl : c2 = "$2" := (Option.some.inj hc2).symm
        decide
      · rcases List.mem_cons.mp hq2 with rfl | hq3
        · obtain rfl : c2 = "$1" := (Option.some.inj hc2).symm
          decide
        · exact absurd hq3 (List.not_mem_nil _))
    (by
      intro q hq c2 hc2 hdec2
      rcases List.mem_cons.mp hq with rfl | hq2
      · rfl
      · rcases List.mem_cons.mp hq2 with rfl | hq3
        · obtain rfl : c2 = "$1" := (Option.some.inj hc2).symm
          exact absurd hdec2 (by decide)
        · exact absurd hq3 (List.not_mem_nil _))
    rfl

theorem lookup_filter_ne_eq_none (params : List (String × String)) (k : String) :
    (params.filter fun p => p.1 ≠ k).lookup k = none := by
  induction params with
  | nil => rfl
  | cons hd tl ih =>
      obtain ⟨a, b⟩ := hd
      by_cases h : a = k
      · rw [List.filter_cons, if_neg (by simp [h])]
        exact ih
      · rw [List.filter_cons, if_pos (by simp [h])]
        have hbeq : (k == a) = false := beq_eq_false_iff_ne.mpr (fun he => h he.symm)
        simp only [List.lookup, hbeq]
        exact ih

theorem lookup_append_str (l1 l2 : List (String × String)) (k : String) :
    (l1 ++ l2).lookup k = ((l1.lookup k).orElse fun _ => l2.lookup k) := by
  induction l1 with
  | nil => rfl
  | cons hd tl ih =>
      obtain ⟨a, b⟩ := hd
      by_cases h : k = a
      · have hbeq : (k == a) = true := beq_iff_eq.mpr h
        simp [List.cons_append, List.lookup, hbeq]
      · have hbeq : (k == a) = false := beq_eq_false_iff_ne.mpr h
        simp [List.cons_append, List.lookup, hbeq, ih]

theorem lookup_jsInsert_self (params : List (String × String)) (k v : String) :
    (jsInsert params k v).lookup k = some v := by
  unfold jsInsert
  rw [lookup_append_str, lookup_filter_ne_eq_none]
  simp [List.lookup, Option.orElse]

theorem lookup_jsInsert_ne (params : List (String × String)) (k v K : String)
    (h : K ≠ k) :
    (jsInsert params k v).lookup K = params.lookup K := by
  unfold jsInsert
  rw [lookup_append_str]
  have h2 : List.lookup K [(k, v)] = none := by
    have hbeq : (K == k) = false := beq_eq_false_iff_ne.mpr h
    simp [List.lookup, hbeq]
  rw [h2]
  induction params with
  | nil => simp [Option.orElse]
  | cons hd tl ih =>
      obtain ⟨a, b⟩ := hd
      by_cases ha : a = k
      · rw [List.filter_cons, if_neg (by simp [ha])]
        have hbeq : (K == a) = false := beq_eq_false_iff_ne.mpr (ha ▸ h)
        simp only [List.lookup, hbeq]
        exact ih
      · rw [List.filter_cons, if_pos (by simp [ha])]
        by_cases hK : K = a
        · have hbeq : (K == a) = true := beq_iff_eq.mpr hK
          simp [List.lookup, hbeq, Option.orElse]
        · have hbeq : (K == a) = false := beq_eq_false_iff_ne.mpr hK
          simp only [List.cons_append, List.lookup, hbeq]
          exact ih

theorem buildParamsAux_lookup_preserve (pl : Option (List (Option String)))
    (args : List String) :
    ∀ (n : Nat) (acc : List (String × String)) (K : String),
      (∀ m, n ≤ m → m < n + args.length → (paramKeyAt pl m).keyString ≠ K) →
      (buildParamsAux pl args n acc).lookup K = acc.lookup K := by
  induction args with
  | nil => intro n acc K _; rfl
  | cons sub rest ih =>
      intro n acc K hK
      rw [show buildParamsAux pl (sub :: rest) n acc =
          buildParamsAux pl rest (n + 1)
            (if (paramKeyAt pl n).truthy then
              jsInsert acc (paramKeyAt pl n).keyString sub else acc) from rfl]
      rw [ih (n + 1) _ K (fun m h1 h2 => hK m (by omega)
        (by rw [List.length_cons]; omega))]
      by_cases ht : (paramKeyAt pl n).truthy
      · rw [if_pos ht, lookup_jsInsert_ne acc _ sub K
          (fun he => hK n le_rfl (by rw [List.length_cons]; omega) he.symm)]
      · rw [if_neg ht]

theorem buildParamsAux_binding (pl : Option (List (Option String))) :
    ∀ (args : List String) (n i : Nat) (sub : String) (acc : List (String × String)),
      args[i]? = some sub →
      (∀ j, j < args.length → j ≠ i →
        (paramKeyAt pl (n + j)).keyString ≠ (paramKeyAt pl (n + i)).keyString) →
      acc.lookup (paramKeyAt pl (n + i)).keyString = none →
      (buildParamsAux pl args n acc).lookup (paramKeyAt pl (n + i)).keyString =
        if (paramKeyAt pl (n + i)).truthy then some sub else none := by
  intro args
  induction args with
  | nil =>
      intro n i sub acc hget
      simp at hget
  | cons sub0 rest ih =>
      intro n i sub acc hget hcol hacc
      rw [show buildParamsAux pl (sub0 :: rest) n acc =
          buildParamsAux pl rest (n + 1)
            (if (paramKeyAt pl n).truthy then
              jsInsert acc (paramKeyAt pl n).keyString sub0 else acc) from rfl]
      cases i with
      | zero =>
          obtain rfl : sub0 = sub := by simpa using hget
          simp only [Nat.add_zero] at hacc ⊢
          have hpres : ∀ m, n + 1 ≤ m → m < n + 1 + rest.length →
              (paramKeyAt pl m).keyString ≠ (paramKeyAt pl n).keyString := by
            intro m h1 h2
            have hj : m - n < (sub0 :: rest).length := by rw [List.length_cons]; omega
            have hcm := hcol (m - n) hj (by omega)
            rwa [show n + (m - n) = m from by omega, Nat.add_zero] at hcm
          rw [buildParamsAux_lookup_preserve pl rest (n + 1) _ _ hpres]
          by_cases ht : (paramKeyAt pl n).truthy
          · rw [if_pos ht, if_pos ht]
            exact lookup_jsInsert_self acc _ sub0
          · rw [if_neg ht, if_neg ht]
            exact hacc
      | succ j =>
          have hget2 : rest[j]? = some sub := by simpa using hget
          have hK : n + (j + 1) = (n + 1) + j := by omega
          have hne0 : (paramKeyAt pl n).keyString ≠
              (paramKeyAt pl (n + (j + 1))).keyString := by
            have hc0 := hcol 0 (by rw [List.length_cons]; omega) (by omega)
            simpa using hc0
          have hacc2 : (if (paramKeyAt pl n).truthy then
              jsInsert acc (paramKeyAt pl n).keyString sub0 else acc).lookup
              (paramKeyAt pl (n + (j + 1))).keyString = none := by
            by_cases ht : (paramKeyAt pl n).truthy
            · rw [if_pos ht, lookup_jsInsert_ne acc _ sub0 _ (fun he => hne0 he.symm)]
              exact hacc
            · rw [if_neg ht]
              exact hacc
          have hcol2 : ∀ j2, j2 < rest.length → j2 ≠ j →
              (paramKeyAt pl ((n + 1) + j2)).keyString ≠
                (paramKeyAt pl ((n + 1) + j)).keyString := by
            intro j2 h1 h2
            have hc := hcol (j2 + 1) (by rw [List.length_cons]; omega) (by omega)
            rwa [show n + (j2 + 1) = (n + 1) + j2 from by omega,
              show n + (j + 1) = (n + 1) + j from by omega] at hc
          rw [hK]
          exact ih (n + 1) j sub _ hget2 hcol2 (hK ▸ hacc2)

/-- Claim C2 (amended): the binding built by `getMessage` binds the argument
at 0-based position `i` under the name stored in `placeholderList` at index
`i` when present, and otherwise under (the string of) the numeric index `i` —
except that when the chosen key is falsy (the numeric index `0`, or an empty
placeholder name) the truthiness guard of the reduce step drops the binding
and the argument gets none.  Stated for an argument whose key collides with no
other position's key. -/
theorem buildParams_binding (pl : Option (List (Option String)))
    (args : List String) (i : Nat) (sub : String)
    (hget : args[i]? = some sub)
    (hcol : ∀ j, j < args.length → j ≠ i →
      (paramKeyAt pl j).keyString ≠ (paramKeyAt pl i).keyString) :
    (buildParams pl args).lookup (paramKeyAt pl i).keyString =
      if (paramKeyAt pl i).truthy then some sub else none := by
  have h := buildParamsAux_binding pl args 0 i sub [] hget
    (by simpa [Nat.zero_add] using hcol) rfl
  simpa [Nat.zero_add] using h

/-- Counterexample to claim C2 as stated: with `placeholderList` lacking an
entry at index 0, the claimed binding key for the argument at position 0 is
the numeric index 0 itself, but the truthiness guard of the reduce
(`pKey ? { ...prms, [pKey]: sub } : prms`) discards a zero key, so the built
parameter object is empty — the supplied argument `"Ann"` gets no binding at
all, contradicting "every supplied argument gets a binding". -/
theorem buildParams_binding_counterexample :
    buildParams (some [none, some "name"]) ["Ann"] = [] ∧
      (paramKeyAt (some [none, some "name"]) 0).keyString = "0" ∧
      (buildParams (some [none, some "name"]) ["Ann"]).lookup "0" = none := by
  exact ⟨by decide, by decide, by decide⟩

/-- Witness for the amended C2: position 1 with no stored name binds under
`"1"`; position 0 with no stored name is dropped. -/
theorem buildParams_binding_witness :
    (buildParams (some [some "name"]) ["Ann", "Bob"]).lookup
        (paramKeyAt (some [some "name"]) 1).keyString =
      (if (paramKeyAt (some [some "name"]) 1).truthy then some "Bob" else none) ∧
    (buildParams (some []) ["x"]).lookup (paramKeyAt (some []) 0).keyString =
      (if (paramKeyAt (some []) 0).truthy then some "x" else none) :=
  ⟨buildParams_binding (some [some "name"]) ["Ann", "Bob"] 1 "Bob" (by decide) (by decide),
    buildParams_binding (some []) ["x"] 0 "x" (by decide) (by decide)⟩

theorem modifyAt_getElem? {α : Type} (l : List α) (i j : Nat) (f : α → α) :
    (modifyAt l i f)[j]? = if j = i then l[j]?.map f else l[j]? := by
  induction l generalizing i j with
  | nil => simp [modifyAt]
  | cons hd tl ih =>
      cases i with
      | zero =>
          cases j with
          | zero => simp [modifyAt]
          | succ j2 => simp [modifyAt]
      | succ i2 =>
          cases j with
          | zero => simp [modifyAt]
          | succ j2 => simp [modifyAt, ih, Nat.succ.injEq]

theorem loadStep_preserves_globalComplete (g0 : FetchedLocaleMessages)
    (s : LoadSystem) (e : LoadEvent) (h : globalComplete g0 s) :
    globalComplete g0 (loadStep s e) := by
  cases e with
  | start =>
      rcases h with hg | ⟨i, ld, hget, hpub, ht, hf⟩
      · exact Or.inl hg
      · refine Or.inr ⟨i, ld, ?_, hpub, ht, hf⟩
        have hlt : i < s.loads.length := by
          by_contra hge
          rw [List.getElem?_eq_none (by omega)] at hget
          cases hget
        simpa [loadStep] using (List.getElem?_append_left hlt).trans hget
  | targetSettled i r =>
      cases hld : s.loads[i]? with
      | none => simpa [loadStep, hld] using h
      | some ld =>
          by_cases htgt : ld.tgt = none
          · rcases h with hg | ⟨i2, ld2, hget2, hpub2, ht2, hf2⟩
            · exact Or.inl (by simpa [loadStep, hld, htgt] using hg)
            · by_cases hii : i2 = i
              · subst hii
                rw [hld] at hget2
                obtain rfl := Option.some.inj hget2
                rw [htgt] at ht2
                cases ht2
              · refine Or.inr ⟨i2, ld2, ?_, hpub2, ?_, ?_⟩
                · simpa [loadStep, hld, htgt, modifyAt_getElem?, hii] using hget2
                · simpa [loadStep, hld, htgt] using ht2
                · simpa [loadStep, hld, htgt] using hf2
          · simpa [loadStep, hld, htgt] using h
  | fallbackSettled i r =>
      cases hld : s.loads[i]? with
      | none => simpa [loadStep, hld] using h
      | some ld =>
          by_cases hfb : ld.fb = none
          · rcases h with hg | ⟨i2, ld2, hget2, hpub2, ht2, hf2⟩
            · exact Or.inl (by simpa [loadStep, hld, hfb] using hg)
            · by_cases hii : i2 = i
              · subst hii
                rw [hld] at hget2
                obtain rfl := Option.some.inj hget2
                rw [hfb] at hf2
                cases hf2
              · refine Or.inr ⟨i2, ld2, ?_, hpub2, ?_, ?_⟩
                · simpa [loadStep, hld, hfb, modifyAt_getElem?, hii] using hget2
                · simpa [loadStep, hld, hfb] using ht2
                · simpa [loadStep, hld, hfb] using hf2
          · simpa [loadStep, hld, hfb] using h
  | publish i =>
      cases hld : s.loads[i]? with
      | none => simpa [loadStep, hld] using h
      | some ld =>
          cases htf : ld.tgt with
          | none => simpa [loadStep, hld, htf] using h
          | some rt =>
              cases hff : ld.fb with
              | none => simpa [loadStep, hld, htf, hff] using h
              | some rf =>
                  by_cases hpub : ld.published = true
                  · simpa [loadStep, hld, htf, hff, hpub] using h
                  · refine Or.inr ⟨i, { ld with published := true }, ?_, rfl, ?_, ?_⟩
                    · simp [loadStep, hld, htf, hff, hpub, modifyAt_getElem?]
                    · simp [loadStep, hld, htf, hff, hpub, htf]
                    · simp [loadStep, hld, htf, hff, hpub, hff]

theorem loadRun_preserves_globalComplete (g0 : FetchedLocaleMessages)
    (events : List LoadEvent) :
    ∀ s, globalComplete g0 s → globalComplete g0 (loadRun s events) := by
  induction events with
  | nil => intro s h; exact h
  | cons e es ih =>
      intro s h
      exact ih _ (loadStep_preserves_globalComplete g0 s e h)

/-- Claim C6: the process-wide bundle pair is replaced only by the single
assignment a load performs after both of its fetches have settled, so after
any interleaving of starting loads, fetch settlements and publishes — with
any number of overlapping loads — the observable global is either the
complete original pair or the complete settled pair of one single published
load, never a partially overwritten mix. -/
theorem load_state_never_partial (g0 : FetchedLocaleMessages)
    (events : List LoadEvent) :
    globalComplete g0 (loadRun ⟨g0, []⟩ events) :=
  loadRun_preserves_globalComplete g0 events ⟨g0, []⟩ (Or.inl rfl)

end LocaleResolver
